import Mathlib

/-!
Verification development for the Lullabot Slack bot's confirmation/dispatch core.

The development shallowly embeds the module-level state of
`src/plugins/factoids.ts` (the three pending-request `Map`s, the interval
sweeper, the YES/NO forget-confirmation handler, the cleanup and restore
button handlers) and, where noted, the Pattern Dispatch Registry described
by the design document (its implementation file
`src/services/pattern-registry.ts` is not part of the snapshot, only its
callers and its mocked tests are).

JavaScript `Map<string, V>` values are embedded as association lists with
JS `Map` semantics: `set` replaces the binding in place when the key is
already present and appends otherwise, `get` returns the first (and, for
lists built through the API, only) binding, `delete` removes the binding.
Millisecond clock readings (`Date.now()`) are embedded as `Nat`.
-/

namespace SlackBot

/-- JS `Map.prototype.get`: the binding for the key, if any. -/
def mapGet {α : Type} : List (String × α) → String → Option α
  | [], _ => none
  | p :: ps, k => if p.1 = k then some p.2 else mapGet ps k

/-- JS `Map.prototype.set`: replace the binding in place if present, else append. -/
def mapSet {α : Type} : List (String × α) → String → α → List (String × α)
  | [], k, v => [(k, v)]
  | p :: ps, k, v => if p.1 = k then (k, v) :: ps else p :: mapSet ps k v

/-- JS `Map.prototype.delete`: drop the binding for the key. -/
def mapDelete {α : Type} : List (String × α) → String → List (String × α)
  | [], _ => []
  | p :: ps, k => if p.1 = k then mapDelete ps k else p :: mapDelete ps k

/-- Keys of an association list are pairwise distinct (true of every JS `Map`). -/
def keysDistinct {α : Type} (m : List (String × α)) : Prop :=
  m.Pairwise (fun p q => p.1 ≠ q.1)

theorem mapGet_nil {α : Type} (k : String) : mapGet ([] : List (String × α)) k = none := rfl

theorem mapGet_mapSet_self {α : Type} (m : List (String × α)) (k : String) (v : α) :
    mapGet (mapSet m k v) k = some v := by
  induction m with
  | nil => simp [mapSet, mapGet]
  | cons p ps ih =>
    by_cases hp : p.1 = k
    · simp [mapSet, hp, mapGet]
    · simp [mapSet, hp, mapGet, ih]

theorem mapGet_mapSet_other {α : Type} (m : List (String × α)) (k k' : String) (v : α)
    (h : k' ≠ k) : mapGet (mapSet m k v) k' = mapGet m k' := by
  induction m with
  | nil =>
    have : k ≠ k' := fun hh => h hh.symm
    simp [mapSet, mapGet, this]
  | cons p ps ih =>
    by_cases hp : p.1 = k
    · have hk : k ≠ k' := fun hh => h hh.symm
      have hp2 : p.1 ≠ k' := by rw [hp]; exact hk
      simp [mapSet, hp, mapGet, hk, hp2]
    · by_cases hq : p.1 = k'
      · simp [mapSet, hp, mapGet, hq, h]
      · simp [mapSet, hp, mapGet, hq, ih]

theorem mapGet_mapDelete_self {α : Type} (m : List (String × α)) (k : String) :
    mapGet (mapDelete m k) k = none := by
  induction m with
  | nil => rfl
  | cons p ps ih =>
    by_cases hp : p.1 = k
    · simp [mapDelete, hp, ih]
    · simp [mapDelete, hp, mapGet, ih]

theorem mapGet_mapDelete_other {α : Type} (m : List (String × α)) (k k' : String)
    (h : k' ≠ k) : mapGet (mapDelete m k) k' = mapGet m k' := by
  induction m with
  | nil => rfl
  | cons p ps ih =>
    by_cases hp : p.1 = k
    · have hp2 : p.1 ≠ k' := by rw [hp]; exact fun hh => h hh.symm
      simp [mapDelete, hp, mapGet, hp2, Ne.symm h, ih]
    · by_cases hq : p.1 = k'
      · simp [mapDelete, hp, mapGet, hq, h]
      · simp [mapDelete, hp, mapGet, hq, ih]

theorem keysDistinct_nil {α : Type} : keysDistinct ([] : List (String × α)) :=
  List.Pairwise.nil

theorem mem_mapSet {α : Type} (m : List (String × α)) (k : String) (v : α)
    (q : String × α) (hq : q ∈ mapSet m k v) : q.1 = k ∨ q ∈ m := by
  induction m with
  | nil =>
    simp only [mapSet, List.mem_singleton] at hq
    subst hq
    exact Or.inl rfl
  | cons p ps ih =>
    by_cases hp : p.1 = k
    · simp only [mapSet, if_pos hp, List.mem_cons] at hq
      rcases hq with hq | hq
      · subst hq; exact Or.inl rfl
      · exact Or.inr (List.mem_cons_of_mem p hq)
    · simp only [mapSet, if_neg hp, List.mem_cons] at hq
      rcases hq with hq | hq
      · subst hq; exact Or.inr (List.mem_cons_self _ _)
      · rcases ih hq with h2 | h2
        · exact Or.inl h2
        · exact Or.inr (List.mem_cons_of_mem p h2)

theorem keysDistinct_mapSet {α : Type} (m : List (String × α)) (k : String) (v : α)
    (h : keysDistinct m) : keysDistinct (mapSet m k v) := by
  induction m with
  | nil =>
    simp only [mapSet, keysDistinct]
    exact List.pairwise_singleton _ _
  | cons p ps ih =>
    rcases List.pairwise_cons.mp h with ⟨hhead, htail⟩
    by_cases hp : p.1 = k
    · simp only [mapSet, if_pos hp, keysDistinct]
      refine List.pairwise_cons.mpr ⟨?_, htail⟩
      intro q hq
      have := hhead q hq
      rw [hp] at this
      exact this
    · simp only [mapSet, if_neg hp, keysDistinct]
      refine List.pairwise_cons.mpr ⟨?_, ih htail⟩
      intro q hq
      rcases mem_mapSet ps k v q hq with h2 | h2
      · rw [h2]; exact hp
      · exact hhead q h2

theorem mapDelete_sublist {α : Type} (m : List (String × α)) (k : String) :
    (mapDelete m k).Sublist m := by
  induction m with
  | nil => exact List.Sublist.refl []
  | cons p ps ih =>
    by_cases hp : p.1 = k
    · simp only [mapDelete, if_pos hp]
      exact List.Sublist.cons p ih
    · simp only [mapDelete, if_neg hp]
      exact List.Sublist.cons₂ p ih

theorem keysDistinct_mapDelete {α : Type} (m : List (String × α)) (k : String)
    (h : keysDistinct m) : keysDistinct (mapDelete m k) :=
  List.Pairwise.sublist (mapDelete_sublist m k) h

theorem keysDistinct_filter {α : Type} (m : List (String × α)) (p : String × α → Bool)
    (h : keysDistinct m) : keysDistinct (m.filter p) :=
  List.Pairwise.sublist (List.filter_sublist m) h

/-- With pairwise-distinct keys there is at most one binding per key. -/
theorem countP_le_one_of_keysDistinct {α : Type} (m : List (String × α)) (u : String)
    (h : keysDistinct m) : m.countP (fun p => p.1 = u) ≤ 1 := by
  induction m with
  | nil => simp
  | cons p ps ih =>
    rcases List.pairwise_cons.mp h with ⟨hhead, htail⟩
    by_cases hp : p.1 = u
    · have hz : ps.countP (fun q => q.1 = u) = 0 := by
        refine List.countP_eq_zero.mpr ?_
        intro q hq
        have : p.1 ≠ q.1 := hhead q hq
        simp only [decide_eq_true_eq]
        intro hc
        exact this (hp.trans hc.symm)
      rw [List.countP_cons]
      simp [hp, hz]
    · rw [List.countP_cons]
      simp only [hp, decide_False, if_false, decide_eq_true_eq]
      simpa using ih htail

/-- `Fact` record stored in a team's factoid file (src/plugins/factoids.ts, `interface Fact`). -/
structure Fact where
  key : String
  be : String
  reply : Bool
  value : List String
  previewLinks : Option Bool
deriving Repr, DecidableEq

/-- One team's factoid table (`FactoidStorage.data`), keyed by storage key. -/
abbrev FactMap : Type := List (String × Fact)

/-- Durable storage across teams: team id to that team's factoid table
(one JSON file per team under `data/teams`). -/
abbrev TeamFacts : Type := List (String × FactMap)

/-- `loadFacts`: a missing or unreadable team file yields an empty table. -/
def getTeam (facts : TeamFacts) (team : String) : FactMap :=
  (mapGet facts team).getD []

/-- Pending forget request (src/plugins/factoids.ts, `interface ForgetRequest`). -/
structure ForgetRequest where
  key : String
  team : String
  channel : String
  thread_ts : Option String
  timestamp : Nat
deriving Repr, DecidableEq

/-- Pending bulk-cleanup request (the anonymous record type of `pendingCleanupRequests`). -/
structure CleanupRequest where
  keys : List String
  team : String
  channel : String
  thread_ts : Option String
  timestamp : Nat
deriving Repr, DecidableEq

/-- Pending restore request (the anonymous record type of `pendingRestoreRequests`). -/
structure RestoreRequest where
  backupFile : String
  team : String
  channel : String
  thread_ts : Option String
  timestamp : Nat
deriving Repr, DecidableEq

/-- The bot's mutable state relevant to the confirmation flows: the three
module-level pending maps of src/plugins/factoids.ts plus the durable
factoid storage the confirmed actions act upon. -/
structure BotState where
  forget : List (String × ForgetRequest)
  cleanup : List (String × CleanupRequest)
  restore : List (String × RestoreRequest)
  facts : TeamFacts

/-- State at process start: all three pending maps empty. -/
def initState (facts : TeamFacts) : BotState :=
  { forget := [], cleanup := [], restore := [], facts := facts }

/-- Fields of an inbound `GenericMessageEvent` the YES/NO handler receives. -/
structure Msg where
  user : String
  text : String
  channel : String
  thread_ts : Option String

/-- The 5-minute pending-forget age bound (literal `300000` in the sweeper). -/
def forgetTtlMs : Nat := 300000

/-- The sweeper's interval (literal `600000` in `setInterval`). -/
def sweepIntervalMs : Nat := 600000

/-- One pass of the `setInterval` sweeper (factoids.ts lines 38-46): it
iterates `pendingForgetRequests` only and deletes entries with
`now - request.timestamp > 300000`. The cleanup and restore maps are not
visited. -/
def sweepOnce (now : Nat) (s : BotState) : BotState :=
  { s with forget := s.forget.filter (fun p => !(decide (now - p.2.timestamp > forgetTtlMs))) }

/-- `text.toUpperCase()` for the ASCII texts the YES/NO flow compares. -/
def upperAscii (s : String) : String := ⟨s.data.map Char.toUpper⟩

/-- Guard of the `app.message(/^(YES|NO)$/i, ...)` listener. -/
def isYesNo (t : String) : Bool :=
  upperAscii t = "YES" || upperAscii t = "NO"

/-- Registration of a pending forget request (factoids.ts lines 600-610):
`pendingForgetRequests.set(mention.user, {...})`. -/
def createForget (s : BotState) (u : String) (req : ForgetRequest) : BotState :=
  { s with forget := mapSet s.forget u req }

/-- Registration of a pending cleanup request (factoids.ts lines 903-910). -/
def createCleanup (s : BotState) (u : String) (req : CleanupRequest) : BotState :=
  { s with cleanup := mapSet s.cleanup u req }

/-- Registration of a pending restore request (factoids.ts lines 1106-1113). -/
def createRestore (s : BotState) (u : String) (req : RestoreRequest) : BotState :=
  { s with restore := mapSet s.restore u req }

/-- The fetch-and-remove step at the head of the YES/NO handler
(factoids.ts lines 366-372): `pendingForgetRequests.get(userId)` followed,
when an entry is present, by `pendingForgetRequests.delete(userId)` before
anything else happens. Returns the fetched entry and the state after it. -/
def confirmForget (s : BotState) (u : String) : Option ForgetRequest × BotState :=
  match mapGet s.forget u with
  | none => (none, s)
  | some req => (some req, { s with forget := mapDelete s.forget u })

/-- The full state effect of the YES/NO message handler (factoids.ts lines
362-407). `saveOk` models whether `saveFacts` succeeds; when it throws, the
error is caught and the durable store is left as it was (the pending entry
was already removed). A `NO` reply removes the pending entry and touches
nothing else. -/
def handleYesNo (saveOk : Bool) (s : BotState) (m : Msg) : BotState :=
  match confirmForget s m.user with
  | (none, _) => s
  | (some req, s1) =>
    if upperAscii m.text = "NO" then s1
    else
      match mapGet (getTeam s1.facts req.team) req.key with
      | some _ =>
        if saveOk then
          { s1 with
            facts := mapSet s1.facts req.team (mapDelete (getTeam s1.facts req.team) req.key) }
        else s1
      | none => s1

/-- The YES/NO listener as a state transition: it fires only on texts
matching `/^(YES|NO)$/i`. -/
def yesNoStep (saveOk : Bool) (s : BotState) (m : Msg) : BotState :=
  if isYesNo m.text then handleYesNo saveOk s m else s

/-- State effect of the cleanup button handler
(`app.action(/factoid_cleanup_(confirm|cancel)_\d+/)`, factoids.ts lines
922-996). With no pending entry nothing changes. `cancel` deletes the
entry. Any other value takes the confirm path: on success the listed keys
are removed from storage and the entry is deleted at the end; when the
backup or save throws (`execOk = false`), the catch block responds with an
error and does NOT delete the pending entry. -/
def handleCleanupAction (execOk : Bool) (s : BotState) (team u : String)
    (choice : String) : BotState :=
  match mapGet s.cleanup u with
  | none => s
  | some req =>
    if choice = "cancel" then { s with cleanup := mapDelete s.cleanup u }
    else
      if execOk then
        let cleaned := req.keys.foldl (fun acc k => mapDelete acc k) (getTeam s.facts team)
        { s with
          facts := mapSet s.facts team cleaned,
          cleanup := mapDelete s.cleanup u }
      else s

/-- State effect of the restore button handler
(`app.action(/factoid_restore_(confirm|cancel)_\d+/)`, factoids.ts lines
1166-1225). `parsed = none` models an unparseable or invalid backup file
(missing `id`/`data`); `execOk = false` models a thrown read/save error —
in both cases, and on success, the pending entry is deleted. -/
def handleRestoreAction (execOk : Bool) (parsed : Option FactMap) (s : BotState)
    (team u : String) (choice : String) : BotState :=
  match mapGet s.restore u with
  | none => s
  | some _ =>
    if choice = "cancel" then { s with restore := mapDelete s.restore u }
    else
      if execOk then
        match parsed with
        | none => { s with restore := mapDelete s.restore u }
        | some data =>
          { s with
            facts := mapSet s.facts team data,
            restore := mapDelete s.restore u }
      else { s with restore := mapDelete s.restore u }

/-- Every operation of the process that touches the pending maps. -/
inductive Op where
  | opCreateForget (u : String) (req : ForgetRequest)
  | opYesNo (saveOk : Bool) (m : Msg)
  | opCreateCleanup (u : String) (req : CleanupRequest)
  | opCleanupAction (execOk : Bool) (team u : String) (choice : String)
  | opCreateRestore (u : String) (req : RestoreRequest)
  | opRestoreAction (execOk : Bool) (parsed : Option FactMap) (team u : String) (choice : String)
  | opSweep (now : Nat)

/-- Apply one operation to the state. -/
def applyOp (s : BotState) : Op → BotState
  | Op.opCreateForget u req => createForget s u req
  | Op.opYesNo saveOk m => yesNoStep saveOk s m
  | Op.opCreateCleanup u req => createCleanup s u req
  | Op.opCleanupAction execOk team u choice => handleCleanupAction execOk s team u choice
  | Op.opCreateRestore u req => createRestore s u req
  | Op.opRestoreAction execOk parsed team u choice =>
      handleRestoreAction execOk parsed s team u choice
  | Op.opSweep now => sweepOnce now s

/-- Run a trace of operations from process start. -/
def run (facts : TeamFacts) (ops : List Op) : BotState :=
  ops.foldl applyOp (initState facts)

/-- Modelled from the spec: `src/services/pattern-registry.ts` is not in the
repository snapshot (only its callers and its mocked tests are), so the
`PatternRule` record follows §3 of the design document: a matcher over raw
message text, the owning module's id, a real-valued priority (embedded as
`ℚ`; the callers pass 0.25, 0.5, 1 and 100), an exclusivity flag, and the
registration-order sequence number used to break exact priority ties. -/
structure PatternRule where
  pattern : String → Bool
  ownerId : String
  priority : ℚ
  exclusive : Bool
  registrationOrder : Nat

/-- Modelled from the spec: the registry's rule store plus the monotonically
increasing sequence counter `Register` draws `registrationOrder` from. -/
structure Registry where
  rules : List PatternRule
  nextOrder : Nat

/-- Registry at process start: no rules, counter at zero. -/
def Registry.empty : Registry := ⟨[], 0⟩

/-- Modelled from the spec: `Register(pattern, ownerId, priority, exclusive)`
appends an immutable rule and assigns the next `registrationOrder`. -/
def Registry.register (r : Registry) (pat : String → Bool) (owner : String)
    (prio : ℚ) (excl : Bool) : Registry :=
  ⟨r.rules ++ [⟨pat, owner, prio, excl, r.nextOrder⟩], r.nextOrder + 1⟩

/-- Rules are listed in registration order, so their sequence numbers are
strictly increasing along the list. -/
def ordersIncreasing (rules : List PatternRule) : Prop :=
  rules.Pairwise (fun a b => a.registrationOrder < b.registrationOrder)

/-- Modelled from the spec: step 1 of `Resolve` — every registered rule is
evaluated against the text, keeping the matches (in registration order). -/
def matchingRules (rules : List PatternRule) (text : String) : List PatternRule :=
  rules.filter (fun r => r.pattern text)

/-- Modelled from the spec: the winner among a candidate pool — highest
priority, exact ties broken in favour of the earlier-listed (first
registered) rule. -/
def pickWinner : List PatternRule → Option PatternRule
  | [] => none
  | r :: rs =>
    match pickWinner rs with
    | none => some r
    | some b => if b.priority > r.priority then some b else some r

/-- Modelled from the spec: `Resolve(text)` — if any matching rule is
exclusive, only the exclusive matches compete; otherwise all matches do.
Returns the winning rule's owner, or none when nothing matches. -/
def resolve (rules : List PatternRule) (text : String) : Option String :=
  let ms := matchingRules rules text
  let pool := if ms.any (fun r => r.exclusive) then ms.filter (fun r => r.exclusive) else ms
  (pickWinner pool).map (fun r => r.ownerId)

/-- Modelled from the spec: `MatchesAny(text)` is `Resolve(text) != none`. -/
def matchesAny (rules : List PatternRule) (text : String) : Bool :=
  (resolve rules text).isSome

theorem pickWinner_eq_none {l : List PatternRule} (h : pickWinner l = none) : l = [] := by
  cases l with
  | nil => rfl
  | cons r rs =>
    exfalso
    cases hpw : pickWinner rs with
    | none => simp [pickWinner, hpw] at h
    | some b =>
      by_cases hgt : b.priority > r.priority <;> simp [pickWinner, hpw, hgt] at h

theorem pickWinner_mem {l : List PatternRule} {w : PatternRule}
    (h : pickWinner l = some w) : w ∈ l := by
  induction l generalizing w with
  | nil => simp [pickWinner] at h
  | cons r rs ih =>
    cases hpw : pickWinner rs with
    | none =>
      simp only [pickWinner, hpw] at h
      rw [← Option.some_inj.mp h]
      exact List.mem_cons_self _ _
    | some b =>
      simp only [pickWinner, hpw] at h
      by_cases hgt : b.priority > r.priority
      · rw [if_pos hgt] at h
        rw [← Option.some_inj.mp h]
        exact List.mem_cons_of_mem _ (ih hpw)
      · rw [if_neg hgt] at h
        rw [← Option.some_inj.mp h]
        exact List.mem_cons_self _ _

theorem pickWinner_max {l : List PatternRule} {w : PatternRule}
    (h : pickWinner l = some w) : ∀ x ∈ l, x.priority ≤ w.priority := by
  induction l generalizing w with
  | nil => simp [pickWinner] at h
  | cons r rs ih =>
    intro x hx
    cases hpw : pickWinner rs with
    | none =>
      have hrs : rs = [] := pickWinner_eq_none hpw
      subst hrs
      simp only [pickWinner, hpw] at h
      rcases List.mem_singleton.mp hx with rfl
      rw [← Option.some_inj.mp h]
    | some b =>
      simp only [pickWinner, hpw] at h
      rcases List.mem_cons.mp hx with rfl | hx2
      · by_cases hgt : b.priority > x.priority
        · rw [if_pos hgt] at h
          rw [← Option.some_inj.mp h]
          exact le_of_lt hgt
        · rw [if_neg hgt] at h
          rw [← Option.some_inj.mp h]
      · have hxb : x.priority ≤ b.priority := ih hpw x hx2
        by_cases hgt : b.priority > r.priority
        · rw [if_pos hgt] at h
          rw [← Option.some_inj.mp h]
          exact hxb
        · rw [if_neg hgt] at h
          rw [← Option.some_inj.mp h]
          exact hxb.trans (not_lt.mp hgt)

theorem pickWinner_tiebreak {l : List PatternRule} {w : PatternRule}
    (hord : ordersIncreasing l) (h : pickWinner l = some w) :
    ∀ x ∈ l, x.priority = w.priority → w.registrationOrder ≤ x.registrationOrder := by
  induction l generalizing w with
  | nil => simp [pickWinner] at h
  | cons r rs ih =>
    rcases List.pairwise_cons.mp hord with ⟨hhead, htail⟩
    intro x hx hxp
    cases hpw : pickWinner rs with
    | none =>
      have hrs : rs = [] := pickWinner_eq_none hpw
      subst hrs
      simp only [pickWinner, hpw] at h
      rcases List.mem_singleton.mp hx with rfl
      rw [← Option.some_inj.mp h]
    | some b =>
      simp only [pickWinner, hpw] at h
      by_cases hgt : b.priority > r.priority
      · rw [if_pos hgt] at h
        have hwb : w = b := (Option.some_inj.mp h).symm
        subst hwb
        rcases List.mem_cons.mp hx with rfl | hx2
        · exact absurd hgt (by rw [hxp]; exact lt_irrefl _)
        · exact ih htail hpw x hx2 hxp
      · rw [if_neg hgt] at h
        have hwr : w = r := (Option.some_inj.mp h).symm
        subst hwr
        rcases List.mem_cons.mp hx with rfl | hx2
        · exact le_refl _
        · exact le_of_lt (hhead x hx2)

theorem handleYesNo_no_pending (saveOk : Bool) (s : BotState) (m : Msg)
    (h : mapGet s.forget m.user = none) : handleYesNo saveOk s m = s := by
  simp [handleYesNo, confirmForget, h]

theorem forget_handleYesNo (saveOk : Bool) (s : BotState) (m : Msg) (req : ForgetRequest)
    (h : mapGet s.forget m.user = some req) :
    (handleYesNo saveOk s m).forget = mapDelete s.forget m.user := by
  simp only [handleYesNo, confirmForget, h]
  by_cases hno : upperAscii m.text = "NO"
  · simp [hno]
  · simp only [hno, if_false]
    cases hf : mapGet (getTeam s.facts req.team) req.key with
    | none => simp [hf]
    | some f => simp only [hf]; cases saveOk <;> rfl

theorem cleanup_handleYesNo (saveOk : Bool) (s : BotState) (m : Msg) :
    (handleYesNo saveOk s m).cleanup = s.cleanup := by
  cases hg : mapGet s.forget m.user with
  | none => rw [handleYesNo_no_pending saveOk s m hg]
  | some req =>
    simp only [handleYesNo, confirmForget, hg]
    by_cases hno : upperAscii m.text = "NO"
    · simp [hno]
    · simp only [hno, if_false]
      cases hf : mapGet (getTeam s.facts req.team) req.key with
      | none => simp [hf]
      | some f => simp only [hf]; cases saveOk <;> rfl

theorem restore_handleYesNo (saveOk : Bool) (s : BotState) (m : Msg) :
    (handleYesNo saveOk s m).restore = s.restore := by
  cases hg : mapGet s.forget m.user with
  | none => rw [handleYesNo_no_pending saveOk s m hg]
  | some req =>
    simp only [handleYesNo, confirmForget, hg]
    by_cases hno : upperAscii m.text = "NO"
    · simp [hno]
    · simp only [hno, if_false]
      cases hf : mapGet (getTeam s.facts req.team) req.key with
      | none => simp [hf]
      | some f => simp only [hf]; cases saveOk <;> rfl

theorem handleCleanupAction_no_pending (execOk : Bool) (s : BotState) (team u c : String)
    (h : mapGet s.cleanup u = none) : handleCleanupAction execOk s team u c = s := by
  simp [handleCleanupAction, h]

theorem forget_handleCleanupAction (execOk : Bool) (s : BotState) (team u c : String) :
    (handleCleanupAction execOk s team u c).forget = s.forget := by
  cases hg : mapGet s.cleanup u with
  | none => rw [handleCleanupAction_no_pending execOk s team u c hg]
  | some req =>
    simp only [handleCleanupAction, hg]
    by_cases hc : c = "cancel"
    · simp [hc]
    · simp only [hc, if_false]
      cases execOk <;> rfl

theorem restore_handleCleanupAction (execOk : Bool) (s : BotState) (team u c : String) :
    (handleCleanupAction execOk s team u c).restore = s.restore := by
  cases hg : mapGet s.cleanup u with
  | none => rw [handleCleanupAction_no_pending execOk s team u c hg]
  | some req =>
    simp only [handleCleanupAction, hg]
    by_cases hc : c = "cancel"
    · simp [hc]
    · simp only [hc, if_false]
      cases execOk <;> rfl

theorem handleRestoreAction_no_pending (execOk : Bool) (parsed : Option FactMap)
    (s : BotState) (team u c : String) (h : mapGet s.restore u = none) :
    handleRestoreAction execOk parsed s team u c = s := by
  simp [handleRestoreAction, h]

theorem forget_handleRestoreAction (execOk : Bool) (parsed : Option FactMap)
    (s : BotState) (team u c : String) :
    (handleRestoreAction execOk parsed s team u c).forget = s.forget := by
  cases hg : mapGet s.restore u with
  | none => rw [handleRestoreAction_no_pending execOk parsed s team u c hg]
  | some req =>
    simp only [handleRestoreAction, hg]
    by_cases hc : c = "cancel"
    · simp [hc]
    · simp only [hc, if_false]
      cases execOk with
      | false => rfl
      | true => cases parsed <;> rfl

theorem cleanup_handleRestoreAction (execOk : Bool) (parsed : Option FactMap)
    (s : BotState) (team u c : String) :
    (handleRestoreAction execOk parsed s team u c).cleanup = s.cleanup := by
  cases hg : mapGet s.restore u with
  | none => rw [handleRestoreAction_no_pending execOk parsed s team u c hg]
  | some req =>
    simp only [handleRestoreAction, hg]
    by_cases hc : c = "cancel"
    · simp [hc]
    · simp only [hc, if_false]
      cases execOk with
      | false => rfl
      | true => cases parsed <;> rfl

theorem keysDistinct_forget_applyOp (s : BotState) (op : Op)
    (h : keysDistinct s.forget) : keysDistinct (applyOp s op).forget := by
  cases op with
  | opCreateForget u req => exact keysDistinct_mapSet _ _ _ h
  | opYesNo saveOk m =>
    simp only [applyOp, yesNoStep]
    by_cases hy : isYesNo m.text
    · simp only [hy, if_true]
      cases hg : mapGet s.forget m.user with
      | none => rw [handleYesNo_no_pending saveOk s m hg]; exact h
      | some req =>
        rw [forget_handleYesNo saveOk s m req hg]
        exact keysDistinct_mapDelete _ _ h
    · simp only [hy, Bool.false_eq_true, if_false]; exact h
  | opCreateCleanup u req => exact h
  | opCleanupAction e team u c =>
    simp only [applyOp]
    rw [forget_handleCleanupAction]; exact h
  | opCreateRestore u req => exact h
  | opRestoreAction e p team u c =>
    simp only [applyOp]
    rw [forget_handleRestoreAction]; exact h
  | opSweep now => exact keysDistinct_filter _ _ h

theorem keysDistinct_forget_run (facts : TeamFacts) (ops : List Op) :
    keysDistinct (run facts ops).forget := by
  have hstep : ∀ (l : List Op) (s : BotState), keysDistinct s.forget →
      keysDistinct (l.foldl applyOp s).forget := by
    intro l
    induction l with
    | nil => intro s hs; exact hs
    | cons op rest ih =>
      intro s hs
      exact ih _ (keysDistinct_forget_applyOp s op hs)
  exact hstep ops (initState facts) keysDistinct_nil

/-- Example fact, as stored by the `X is Y` handler. -/
def exFactCats : Fact := ⟨"cats", "are", false, ["great"], some true⟩

/-- Example durable storage: one team owning one fact. -/
def exFacts : TeamFacts := [("T1", [("cats", exFactCats)])]

/-- Example state with empty pending maps. -/
def exEmpty : BotState := initState exFacts

/-- Example pending forget request. -/
def exForgetA : ForgetRequest := ⟨"cats", "T1", "CH1", none, 0⟩

/-- Example pending cleanup request. -/
def exCleanupB : CleanupRequest := ⟨["bad1", "bad2"], "T1", "CH1", none, 0⟩

/-- CLAIM C5. Create for an existing (requesterId, kind) key overwrites the
prior pending entry without error: after Create(u, k, A) then Create(u, k, B),
a Confirm(u, k) yields payload B and never A, for every requester u, kind k,
and payloads A, B — here proved for each of the three kinds (forget, cleanup,
restore), whose Create is `Map.set` and whose Confirm reads the same map. -/
theorem c5_create_overwrites :
    (∀ (s : BotState) (u : String) (A B : ForgetRequest),
      (confirmForget (createForget (createForget s u A) u B) u).1 = some B) ∧
    (∀ (s : BotState) (u : String) (A B : CleanupRequest),
      mapGet (createCleanup (createCleanup s u A) u B).cleanup u = some B) ∧
    (∀ (s : BotState) (u : String) (A B : RestoreRequest),
      mapGet (createRestore (createRestore s u A) u B).restore u = some B) := by
  refine ⟨?_, ?_, ?_⟩
  · intro s u A B
    simp [confirmForget, createForget, mapGet_mapSet_self]
  · intro s u A B
    simp [createCleanup, mapGet_mapSet_self]
  · intro s u A B
    simp [createRestore, mapGet_mapSet_self]

/-- CLAIM C6. Kinds are isolated: for a requester holding a pending forget
payload A and a pending cleanup payload B, confirming the forget returns A,
leaves the cleanup map (hence u's cleanup entry) and the restore map
untouched, and leaves every other requester's forget entry unchanged. -/
theorem c6_kind_isolation (s : BotState) (u : String) (A : ForgetRequest)
    (B : CleanupRequest) :
    (confirmForget (createCleanup (createForget s u A) u B) u).1 = some A ∧
    (confirmForget (createCleanup (createForget s u A) u B) u).2.cleanup =
      (createCleanup (createForget s u A) u B).cleanup ∧
    mapGet (confirmForget (createCleanup (createForget s u A) u B) u).2.cleanup u = some B ∧
    (confirmForget (createCleanup (createForget s u A) u B) u).2.restore = s.restore ∧
    (∀ u', u' ≠ u →
      mapGet (confirmForget (createCleanup (createForget s u A) u B) u).2.forget u' =
        mapGet s.forget u') := by
  have hget : mapGet (mapSet s.forget u A) u = some A := mapGet_mapSet_self _ _ _
  refine ⟨?_, ?_, ?_, ?_, ?_⟩
  · simp [confirmForget, createCleanup, createForget, hget]
  · simp [confirmForget, createCleanup, createForget, hget]
  · simp [confirmForget, createCleanup, createForget, hget, mapGet_mapSet_self]
  · simp [confirmForget, createCleanup, createForget, hget]
  · intro u' hu
    simp only [confirmForget, createCleanup, createForget, hget]
    show mapGet (mapDelete (mapSet s.forget u A) u) u' = mapGet s.forget u'
    rw [mapGet_mapDelete_other _ _ _ hu]
    exact mapGet_mapSet_other _ _ _ _ hu

/-- Witness for C6 at concrete inputs. -/
theorem c6_kind_isolation_witness :
    ("U2" : String) ≠ "U1" ∧
    (confirmForget (createCleanup (createForget exEmpty "U1" exForgetA) "U1" exCleanupB)
      "U1").1 = some exForgetA ∧
    mapGet (confirmForget (createCleanup (createForget exEmpty "U1" exForgetA) "U1"
      exCleanupB) "U1").2.forget "U2" = mapGet exEmpty.forget "U2" :=
  ⟨by decide,
   (c6_kind_isolation exEmpty "U1" exForgetA exCleanupB).1,
   (c6_kind_isolation exEmpty "U1" exForgetA exCleanupB).2.2.2.2 "U2" (by decide)⟩

/-- CLAIM C9. In the forget confirmation flow the pending entry is removed
before the destructive deletion is attempted, so a pending forget request is
executed at most once: after one YES is processed the entry is gone — also
when saving failed (`saveOk = false`) — and a second YES from the same user
(from any channel) performs no deletion and produces no state change. -/
theorem c9_forget_executed_once (saveOk saveOk2 : Bool) (s : BotState) (m m2 : Msg)
    (req : ForgetRequest) (hu : m2.user = m.user) (hy : isYesNo m.text = true)
    (hy2 : isYesNo m2.text = true) (hp : mapGet s.forget m.user = some req) :
    mapGet (yesNoStep saveOk s m).forget m.user = none ∧
    yesNoStep saveOk2 (yesNoStep saveOk s m) m2 = yesNoStep saveOk s m := by
  have h1 : mapGet (yesNoStep saveOk s m).forget m.user = none := by
    simp only [yesNoStep, hy, if_true]
    rw [forget_handleYesNo saveOk s m req hp]
    exact mapGet_mapDelete_self _ _
  have h2 : ∀ (t : BotState), mapGet t.forget m2.user = none →
      yesNoStep saveOk2 t m2 = t := by
    intro t hnone
    simp only [yesNoStep, hy2, if_true]
    exact handleYesNo_no_pending _ _ _ hnone
  exact ⟨h1, h2 _ (by rw [hu]; exact h1)⟩

/-- Pending request used in the C9 witness. -/
def c9req : ForgetRequest := ⟨"cats", "T1", "CH1", none, 0⟩

/-- State used in the C9 witness: one pending forget request. -/
def c9state : BotState :=
  { forget := [("U1", c9req)], cleanup := [], restore := [], facts := exFacts }

/-- Witness for C9 at concrete inputs: the first YES runs with a failing
save, the second YES arrives from a different channel. -/
theorem c9_forget_executed_once_witness :
    isYesNo "YES" = true ∧
    mapGet c9state.forget "U1" = some c9req ∧
    mapGet (yesNoStep false c9state ⟨"U1", "YES", "CH1", none⟩).forget "U1" = none ∧
    yesNoStep true (yesNoStep false c9state ⟨"U1", "YES", "CH1", none⟩)
        ⟨"U1", "yes", "CH2", none⟩ =
      yesNoStep false c9state ⟨"U1", "YES", "CH1", none⟩ :=
  ⟨by decide, by decide,
   (c9_forget_executed_once false true c9state ⟨"U1", "YES", "CH1", none⟩
     ⟨"U1", "yes", "CH2", none⟩ c9req rfl (by decide) (by decide) (by decide)).1,
   (c9_forget_executed_once false true c9state ⟨"U1", "YES", "CH1", none⟩
     ⟨"U1", "yes", "CH2", none⟩ c9req rfl (by decide) (by decide) (by decide)).2⟩

/-- Pending request used in the C10 scenario: created at 300001 ms. -/
def c10req : ForgetRequest := ⟨"cats", "T1", "CH1", none, 300001⟩

/-- State used in the C10 scenario. -/
def c10state : BotState :=
  { forget := [("U1", c10req)], cleanup := [], restore := [], facts := [] }

/-- CLAIM C10. A single sweeper pass removes exactly the pending forget
entries whose age at sweep time strictly exceeds 300000 ms and keeps every
entry aged 300000 ms or less; cleanup and restore entries are never removed
by the sweeper; and, with the 600000 ms sweep interval, a concrete schedule
(sweeps at 600000 and 1200000 ms, entry created at 300001 ms) keeps an
abandoned forget entry observable until 899999 ms — roughly 15 minutes —
after creation. -/
theorem c10_sweeper_exact :
    (∀ (now : Nat) (s : BotState) (k : String) (req : ForgetRequest),
      (k, req) ∈ (sweepOnce now s).forget ↔
        ((k, req) ∈ s.forget ∧ now - req.timestamp ≤ forgetTtlMs)) ∧
    (∀ (now : Nat) (s : BotState),
      (sweepOnce now s).cleanup = s.cleanup ∧ (sweepOnce now s).restore = s.restore) ∧
    (sweepIntervalMs = 600000 ∧ forgetTtlMs = 300000) ∧
    (mapGet (sweepOnce 600000 c10state).forget "U1" = some c10req ∧
      600000 - c10req.timestamp = 299999 ∧
      mapGet (sweepOnce 1200000 (sweepOnce 600000 c10state)).forget "U1" = none ∧
      1200000 - c10req.timestamp = 899999) := by
  refine ⟨?_, ?_, ⟨rfl, rfl⟩, ?_, ?_, ?_, ?_⟩
  · intro now s k req
    simp [sweepOnce, List.mem_filter, Nat.not_lt]
  · intro now s
    exact ⟨rfl, rfl⟩
  · decide
  · decide
  · decide
  · decide

/-- CLAIM C3. For every text and every set of registered rules, if at least
one matching rule is exclusive then Resolve returns the owner of the
exclusive matching rule with the highest priority (exact ties broken toward
the earliest registration), and every non-exclusive matching rule is ignored
regardless of its priority: the winner itself is exclusive, so an exclusive
rule of priority 1 beats a non-exclusive rule of priority 100. -/
theorem c3_exclusive_override (rules : List PatternRule) (text : String)
    (hord : ordersIncreasing rules)
    (hex : ∃ r ∈ matchingRules rules text, r.exclusive = true) :
    ∃ w ∈ matchingRules rules text, w.exclusive = true ∧
      resolve rules text = some w.ownerId ∧
      (∀ x ∈ matchingRules rules text, x.exclusive = true → x.priority ≤ w.priority) ∧
      (∀ x ∈ matchingRules rules text, x.exclusive = true → x.priority = w.priority →
        w.registrationOrder ≤ x.registrationOrder) := by
  obtain ⟨r0, hr0m, hr0e⟩ := hex
  have hany : (matchingRules rules text).any (fun r => r.exclusive) = true :=
    List.any_eq_true.mpr ⟨r0, hr0m, hr0e⟩
  have hmem : r0 ∈ (matchingRules rules text).filter (fun r => r.exclusive) :=
    List.mem_filter.mpr ⟨hr0m, hr0e⟩
  have hnempty : (matchingRules rules text).filter (fun r => r.exclusive) ≠ [] := by
    intro hcontra
    rw [hcontra] at hmem
    exact absurd hmem (List.not_mem_nil r0)
  obtain ⟨w, hw⟩ :
      ∃ w, pickWinner ((matchingRules rules text).filter (fun r => r.exclusive)) = some w := by
    cases hpw : pickWinner ((matchingRules rules text).filter (fun r => r.exclusive)) with
    | none => exact absurd (pickWinner_eq_none hpw) hnempty
    | some w => exact ⟨w, rfl⟩
  have hwmem := pickWinner_mem hw
  have hordpool :
      ordersIncreasing ((matchingRules rules text).filter (fun r => r.exclusive)) :=
    List.Pairwise.sublist (List.filter_sublist _)
      (List.Pairwise.sublist (List.filter_sublist _) hord)
  refine ⟨w, (List.mem_filter.mp hwmem).1, (List.mem_filter.mp hwmem).2, ?_, ?_, ?_⟩
  · simp only [resolve, hany, if_true, hw, Option.map_some']
  · intro x hx hxe
    exact pickWinner_max hw x (List.mem_filter.mpr ⟨hx, hxe⟩)
  · intro x hx hxe hxp
    exact pickWinner_tiebreak hordpool hw x (List.mem_filter.mpr ⟨hx, hxe⟩) hxp

/-- Concrete registry for the C3 witness: a non-exclusive catch-all with
priority 100 registered first, then an exclusive command rule with
priority 1 (the design document's exclusivity scenario). -/
def c3rules : List PatternRule :=
  ((Registry.empty.register (fun _ => true) "catchall" 100 false).register
    (fun t => decide (t = "cmd: hi")) "llm" 1 true).rules

/-- Witness for C3: on `"cmd: hi"` both rules match, the exclusive priority-1
rule wins over the non-exclusive priority-100 one, and `Resolve` evaluates to
`"llm"`. -/
theorem c3_exclusive_override_witness :
    ordersIncreasing c3rules ∧
    (∃ r ∈ matchingRules c3rules "cmd: hi", r.exclusive = true) ∧
    (∃ w ∈ matchingRules c3rules "cmd: hi", w.exclusive = true ∧
      resolve c3rules "cmd: hi" = some w.ownerId ∧
      (∀ x ∈ matchingRules c3rules "cmd: hi", x.exclusive = true →
        x.priority ≤ w.priority) ∧
      (∀ x ∈ matchingRules c3rules "cmd: hi", x.exclusive = true →
        x.priority = w.priority → w.registrationOrder ≤ x.registrationOrder)) ∧
    resolve c3rules "cmd: hi" = some "llm" :=
  ⟨by unfold ordersIncreasing; decide, by decide,
   c3_exclusive_override c3rules "cmd: hi" (by unfold ordersIncreasing; decide) (by decide),
   by decide⟩

/-- CLAIM C4. For every text matching only non-exclusive rules, Resolve
returns the owner of the matching rule with the highest (rational-valued)
priority; when two matching rules have exactly equal priority, the rule with
the lowest registrationOrder (first registered) wins. Resolution is a pure
function of the registry state, hence deterministic across repeated calls. -/
theorem c4_priority_order_tiebreak (rules : List PatternRule) (text : String)
    (hord : ordersIncreasing rules)
    (hne : matchingRules rules text ≠ [])
    (hnoex : ∀ r ∈ matchingRules rules text, r.exclusive = false) :
    ∃ w ∈ matchingRules rules text,
      resolve rules text = some w.ownerId ∧
      (∀ x ∈ matchingRules rules text, x.priority ≤ w.priority) ∧
      (∀ x ∈ matchingRules rules text, x.priority = w.priority →
        w.registrationOrder ≤ x.registrationOrder) := by
  have hany : (matchingRules rules text).any (fun r => r.exclusive) = false := by
    rw [List.any_eq_false]
    intro r hr
    simp [hnoex r hr]
  obtain ⟨w, hw⟩ : ∃ w, pickWinner (matchingRules rules text) = some w := by
    cases hpw : pickWinner (matchingRules rules text) with
    | none => exact absurd (pickWinner_eq_none hpw) hne
    | some w => exact ⟨w, rfl⟩
  have hordms : ordersIncreasing (matchingRules rules text) :=
    List.Pairwise.sublist (List.filter_sublist _) hord
  refine ⟨w, pickWinner_mem hw, ?_, ?_, ?_⟩
  · simp only [resolve, hany, Bool.false_eq_true, if_false, hw, Option.map_some']
  · exact pickWinner_max hw
  · exact pickWinner_tiebreak hordms hw

/-- Concrete registry for the C4 witness: two non-exclusive rules with equal
priority 5, both matching everything; `"greeter"` registered first. -/
def c4rules : List PatternRule :=
  ((Registry.empty.register (fun _ => true) "greeter" 5 false).register
    (fun _ => true) "other" 5 false).rules

/-- Witness for C4: the equal-priority tie goes to the first-registered
owner; `Resolve` evaluates to `"greeter"`. -/
theorem c4_priority_order_tiebreak_witness :
    ordersIncreasing c4rules ∧
    matchingRules c4rules "hello" ≠ [] ∧
    (∀ r ∈ matchingRules c4rules "hello", r.exclusive = false) ∧
    (∃ w ∈ matchingRules c4rules "hello",
      resolve c4rules "hello" = some w.ownerId ∧
      (∀ x ∈ matchingRules c4rules "hello", x.priority ≤ w.priority) ∧
      (∀ x ∈ matchingRules c4rules "hello", x.priority = w.priority →
        w.registrationOrder ≤ x.registrationOrder)) ∧
    resolve c4rules "hello" = some "greeter" :=
  ⟨by unfold ordersIncreasing; decide,
   by simp [matchingRules, c4rules, Registry.register, Registry.empty],
   by decide,
   c4_priority_order_tiebreak c4rules "hello" (by unfold ordersIncreasing; decide)
     (by simp [matchingRules, c4rules, Registry.register, Registry.empty]) (by decide),
   by decide⟩

/-- Stale pending forget request: created at time 0. -/
def staleForget : ForgetRequest := ⟨"cats", "T1", "CH1", none, 0⟩

/-- Stale pending cleanup request: created at time 0. -/
def staleCleanup : CleanupRequest := ⟨["bad1"], "T1", "CH1", none, 0⟩

/-- Stale pending restore request: created at time 0. -/
def staleRestore : RestoreRequest := ⟨"T1_factoids_x.json", "T1", "CH1", none, 0⟩

/-- State holding one long-expired pending entry of each kind. -/
def staleState : BotState :=
  { forget := [("U1", staleForget)], cleanup := [("U1", staleCleanup)],
    restore := [("U1", staleRestore)], facts := exFacts }

/-- CLAIM C1, counterexample: at time 1000000 the pending forget entry
created at time 0 is far past its 5-minute ttl and the sweeper has not run,
yet the confirmation read still returns it — the YES/NO handler performs no
timestamp check, so the claimed lazy-expiry read path does not exist. -/
theorem c1_counterexample :
    1000000 - staleForget.timestamp > forgetTtlMs ∧
    (confirmForget staleState "U1").1 = some staleForget ∧
    (confirmForget staleState "U1").1 ≠ none := by
  refine ⟨by decide, by decide, by decide⟩

/-- CLAIM C1, amended: no lazy-expiry read path exists. Whenever a pending
entry is present it is returned by the confirmation read and acted on by the
handlers even when its age exceeds the ttl: the forget read hands back the
stale entry, a stale cleanup confirmation still executes the purge, and a
stale restore confirmation still executes the restore. Expiry is enforced
only by the background sweeper, and only for the forget kind. -/
theorem c1_no_lazy_expiry (now : Nat) (s : BotState) (team u : String)
    (fr : ForgetRequest) (cr : CleanupRequest) (rr : RestoreRequest) :
    (mapGet s.forget u = some fr → now - fr.timestamp > forgetTtlMs →
      (confirmForget s u).1 = some fr) ∧
    (mapGet s.cleanup u = some cr → now - cr.timestamp > forgetTtlMs →
      handleCleanupAction true s team u "confirm" =
        { s with
          facts := mapSet s.facts team
            (cr.keys.foldl (fun acc k => mapDelete acc k) (getTeam s.facts team)),
          cleanup := mapDelete s.cleanup u }) ∧
    (∀ (data : FactMap), mapGet s.restore u = some rr →
      now - rr.timestamp > forgetTtlMs →
      handleRestoreAction true (some data) s team u "confirm" =
        { s with facts := mapSet s.facts team data,
                 restore := mapDelete s.restore u }) := by
  refine ⟨?_, ?_, ?_⟩
  · intro hp _
    simp [confirmForget, hp]
  · intro hp _
    simp only [handleCleanupAction, hp]
    rw [if_neg (by decide : ¬ ("confirm" = "cancel"))]
    rfl
  · intro data hp _
    simp only [handleRestoreAction, hp]
    rw [if_neg (by decide : ¬ ("confirm" = "cancel"))]
    rfl

/-- Witness for the amended C1 at concrete stale inputs (observed at time
1000000, all entries created at time 0). -/
theorem c1_no_lazy_expiry_witness :
    (confirmForget staleState "U1").1 = some staleForget ∧
    handleCleanupAction true staleState "T1" "U1" "confirm" =
      { staleState with
        facts := mapSet staleState.facts "T1"
          (staleCleanup.keys.foldl (fun acc k => mapDelete acc k)
            (getTeam staleState.facts "T1")),
        cleanup := mapDelete staleState.cleanup "U1" } ∧
    handleRestoreAction true (some []) staleState "T1" "U1" "confirm" =
      { staleState with facts := mapSet staleState.facts "T1" [],
                        restore := mapDelete staleState.restore "U1" } :=
  ⟨(c1_no_lazy_expiry 1000000 staleState "T1" "U1" staleForget staleCleanup
      staleRestore).1 (by decide) (by decide),
   (c1_no_lazy_expiry 1000000 staleState "T1" "U1" staleForget staleCleanup
      staleRestore).2.1 (by decide) (by decide),
   (c1_no_lazy_expiry 1000000 staleState "T1" "U1" staleForget staleCleanup
      staleRestore).2.2 [] (by decide) (by decide)⟩

/-- CLAIM C2, counterexample: a sweeper pass at time 1000000 removes the
expired forget entry but leaves the equally expired cleanup and restore
entries in place — the sweeper iterates only `pendingForgetRequests`, so it
does not remove "every pending entry of every kind". -/
theorem c2_counterexample :
    1000000 - staleCleanup.timestamp > forgetTtlMs ∧
    1000000 - staleRestore.timestamp > forgetTtlMs ∧
    mapGet (sweepOnce 1000000 staleState).cleanup "U1" = some staleCleanup ∧
    mapGet (sweepOnce 1000000 staleState).restore "U1" = some staleRestore ∧
    mapGet (sweepOnce 1000000 staleState).forget "U1" = none := by
  refine ⟨by decide, by decide, by decide, by decide, by decide⟩

/-- CLAIM C2, amended: the background sweeper runs on a fixed 600000 ms
interval and each pass removes every pending *forget* entry whose age
strictly exceeds the 300000 ms ttl, independent of any reads or
confirmations (the pass is a function of the map contents alone) — but
cleanup and restore entries are never removed by the sweeper. -/
theorem c2_sweeper_forget_only :
    sweepIntervalMs = 600000 ∧
    (∀ (now : Nat) (s : BotState) (k : String) (req : ForgetRequest),
      (k, req) ∈ s.forget → now - req.timestamp > forgetTtlMs →
      (k, req) ∉ (sweepOnce now s).forget) ∧
    (∀ (now : Nat) (s : BotState),
      (sweepOnce now s).cleanup = s.cleanup ∧ (sweepOnce now s).restore = s.restore) := by
  refine ⟨rfl, ?_, fun now s => ⟨rfl, rfl⟩⟩
  intro now s k req _ hexp hcontra
  have hpred := (List.mem_filter.mp hcontra).2
  simp only [Bool.not_eq_true', decide_eq_false_iff_not] at hpred
  exact hpred hexp

/-- Witness for the amended C2: the expired entry is gone after the pass. -/
theorem c2_sweeper_forget_only_witness :
    ("U1", staleForget) ∈ staleState.forget ∧
    1000000 - staleForget.timestamp > forgetTtlMs ∧
    ("U1", staleForget) ∉ (sweepOnce 1000000 staleState).forget :=
  ⟨by decide, by decide,
   c2_sweeper_forget_only.2.1 1000000 staleState "U1" staleForget
     (by decide) (by decide)⟩

/-- CLAIM C7, counterexample: the cleanup confirmation handler fetches the
pending entry, the execution throws (`execOk = false`), and the catch path
does not delete the entry — the (requester, cleanup) key still holds it, so
removal does not hold "regardless of whether executing the confirmed
payload's effect subsequently succeeds or fails". -/
theorem c7_counterexample :
    mapGet staleState.cleanup "U1" = some staleCleanup ∧
    mapGet (handleCleanupAction false staleState "T1" "U1" "confirm").cleanup "U1" =
      some staleCleanup := by
  exact ⟨by decide, by decide⟩

/-- CLAIM C7, amended: Confirm fetches and removes the pending entry for the
forget kind (the entry is removed before the payload executes, so removal
holds whether or not saving succeeds) and for the restore kind (removed on
success, invalid backup, and error alike); with no pending entry every
confirmation path is a no-op ("nothing to confirm", not an error), so a
second confirm after a consuming one finds nothing. For the cleanup kind,
removal holds on successful execution, but a failed execution leaves the
entry pending, allowing a retry. -/
theorem c7_confirm_fetch_and_remove (saveOk execOk : Bool) (parsed : Option FactMap)
    (s : BotState) (team u : String) (m : Msg) (fr : ForgetRequest)
    (cr : CleanupRequest) (rr : RestoreRequest) :
    (isYesNo m.text = true → mapGet s.forget m.user = some fr →
      mapGet (yesNoStep saveOk s m).forget m.user = none) ∧
    (mapGet s.restore u = some rr →
      mapGet (handleRestoreAction execOk parsed s team u "confirm").restore u = none) ∧
    (mapGet s.cleanup u = some cr →
      mapGet (handleCleanupAction true s team u "confirm").cleanup u = none ∧
      mapGet (handleCleanupAction false s team u "confirm").cleanup u = some cr) ∧
    (mapGet s.forget m.user = none → yesNoStep saveOk s m = s) ∧
    (mapGet s.cleanup u = none → handleCleanupAction execOk s team u "confirm" = s) ∧
    (mapGet s.restore u = none →
      handleRestoreAction execOk parsed s team u "confirm" = s) := by
  refine ⟨?_, ?_, ?_, ?_, ?_, ?_⟩
  · intro hy hp
    simp only [yesNoStep, hy, if_true]
    rw [forget_handleYesNo saveOk s m fr hp]
    exact mapGet_mapDelete_self _ _
  · intro hp
    simp only [handleRestoreAction, hp]
    rw [if_neg (by decide : ¬ ("confirm" = "cancel"))]
    cases execOk with
    | false => exact mapGet_mapDelete_self _ _
    | true =>
      cases parsed with
      | none => exact mapGet_mapDelete_self _ _
      | some data => exact mapGet_mapDelete_self _ _
  · intro hp
    constructor
    · simp only [handleCleanupAction, hp]
      rw [if_neg (by decide : ¬ ("confirm" = "cancel"))]
      exact mapGet_mapDelete_self _ _
    · simp only [handleCleanupAction, hp]
      rw [if_neg (by decide : ¬ ("confirm" = "cancel"))]
      exact hp
  · intro hp
    by_cases hy : isYesNo m.text
    · simp only [yesNoStep, hy, if_true]
      exact handleYesNo_no_pending _ _ _ hp
    · simp only [yesNoStep, hy, Bool.false_eq_true, if_false]
  · exact handleCleanupAction_no_pending _ _ _ _ _
  · exact handleRestoreAction_no_pending _ _ _ _ _ _

/-- Witness for the amended C7 at concrete inputs: the YES consumes the
forget entry even with a failing save; the restore confirm removes its entry
on error; the cleanup confirm removes its entry on success and keeps it on
failure; reads with nothing pending are no-ops. -/
theorem c7_confirm_fetch_and_remove_witness :
    isYesNo "YES" = true ∧
    mapGet staleState.forget "U1" = some staleForget ∧
    mapGet (yesNoStep false staleState ⟨"U1", "YES", "CH1", none⟩).forget "U1" = none ∧
    mapGet (handleRestoreAction false none staleState "T1" "U1" "confirm").restore "U1" =
      none ∧
    mapGet (handleCleanupAction true staleState "T1" "U1" "confirm").cleanup "U1" = none ∧
    mapGet (handleCleanupAction false staleState "T1" "U1" "confirm").cleanup "U1" =
      some staleCleanup ∧
    yesNoStep true exEmpty ⟨"U1", "NO", "CH1", none⟩ = exEmpty :=
  ⟨by decide, by decide,
   (c7_confirm_fetch_and_remove false false none staleState "T1" "U1"
     ⟨"U1", "YES", "CH1", none⟩ staleForget staleCleanup staleRestore).1
     (by decide) (by decide),
   (c7_confirm_fetch_and_remove false false none staleState "T1" "U1"
     ⟨"U1", "YES", "CH1", none⟩ staleForget staleCleanup staleRestore).2.1 (by decide),
   ((c7_confirm_fetch_and_remove false false none staleState "T1" "U1"
     ⟨"U1", "YES", "CH1", none⟩ staleForget staleCleanup staleRestore).2.2.1
     (by decide)).1,
   ((c7_confirm_fetch_and_remove false false none staleState "T1" "U1"
     ⟨"U1", "YES", "CH1", none⟩ staleForget staleCleanup staleRestore).2.2.1
     (by decide)).2,
   (c7_confirm_fetch_and_remove true false none exEmpty "T1" "U1"
     ⟨"U1", "NO", "CH1", none⟩ staleForget staleCleanup staleRestore).2.2.2.1
     (by decide)⟩

/-- CLAIM C8. The pending-forget table is keyed by requester id alone,
process-wide: every reachable state holds at most one pending forget entry
per user; the YES/NO handler's state effect is independent of the channel
and thread the message arrives in; and a YES/NO from the pending requester
(in any channel) consumes the single pending request. -/
theorem c8_keyed_by_requester (facts : TeamFacts) (ops : List Op) (u : String) :
    ((run facts ops).forget.countP (fun p => p.1 = u) ≤ 1) ∧
    (∀ (saveOk : Bool) (s : BotState) (text ch ch' : String) (th th' : Option String),
      yesNoStep saveOk s ⟨u, text, ch, th⟩ = yesNoStep saveOk s ⟨u, text, ch', th'⟩) ∧
    (∀ (saveOk : Bool) (s : BotState) (m : Msg) (req : ForgetRequest),
      m.user = u → isYesNo m.text = true → mapGet s.forget u = some req →
      mapGet (yesNoStep saveOk s m).forget u = none) := by
  refine ⟨?_, ?_, ?_⟩
  · exact countP_le_one_of_keysDistinct _ _ (keysDistinct_forget_run facts ops)
  · intro saveOk s text ch ch' th th'
    rfl
  · intro saveOk s m req hmu hy hp
    subst hmu
    simp only [yesNoStep, hy, if_true]
    rw [forget_handleYesNo saveOk s m req hp]
    exact mapGet_mapDelete_self _ _

/-- Witness for C8: a trace that creates two forget requests for the same
user still leaves at most one entry; a YES from a different channel than the
request's origin consumes it. -/
theorem c8_keyed_by_requester_witness :
    ((run exFacts [Op.opCreateForget "U1" staleForget,
        Op.opCreateForget "U1" exForgetA]).forget.countP
      (fun p => p.1 = "U1") ≤ 1) ∧
    (⟨"U1", "yes", "CH1", none⟩ : Msg).user = "U1" ∧
    isYesNo "yes" = true ∧
    mapGet staleState.forget "U1" = some staleForget ∧
    mapGet (yesNoStep true staleState ⟨"U1", "yes", "CH1", none⟩).forget "U1" = none :=
  ⟨(c8_keyed_by_requester exFacts
      [Op.opCreateForget "U1" staleForget, Op.opCreateForget "U1" exForgetA] "U1").1,
   rfl, by decide, by decide,
   (c8_keyed_by_requester exFacts [] "U1").2.2 true staleState
     ⟨"U1", "yes", "CH1", none⟩ staleForget rfl (by decide) (by decide)⟩

end SlackBot
